import Mathlib

/-!
Shallow embedding of `kubedifflib/_diff.py` (the asymmetric structural diff
engine, object identity extraction, reporters and the check orchestrator).

Modelling choices:
* Tree values (`Value`): mappings are association lists with `String` keys in
  insertion order, sequences are `List Value`, scalars are string / integer /
  boolean / null.  Numbers are modelled as integers.
* Python 2 semantics of the operations the source performs on `have` are
  modelled explicitly: `==` (`pyEq`, with the numeric bool/int coercion),
  `in` (`pyContains`), `len` (`pyLen`), iteration (`pyIter`) and
  subscripting (`pySubscript`).  Operations that raise (`TypeError`,
  `KeyError`) return `Except PyErr`.
* A Python generator that may raise mid-iteration is modelled by `GenResult`:
  the list of values yielded before the exception (if any), plus the optional
  exception.
-/

/-- A Python/YAML tree value: mapping, sequence or scalar. -/
inductive Value where
  | str (s : String)
  | int (n : Int)
  | bool (b : Bool)
  | null
  | list (xs : List Value)
  | dict (kvs : List (String × Value))

/-- Python exceptions that the modelled code can raise. -/
inductive PyErr where
  | typeError
  | keyError
deriving DecidableEq, Repr

mutual

/-- Python 2 `==` on tree values: exact equality within each scalar type,
except that booleans compare numerically with integers (`True == 1`,
`False == 0`); lists compare elementwise; dicts compare as mappings
(same size, every key of the left found in the right with equal value). -/
def pyEq : Value → Value → Bool
  | .str a, .str b => a = b
  | .int a, .int b => a = b
  | .bool a, .bool b => a = b
  | .null, .null => true
  | .int a, .bool b => a = (if b then (1 : Int) else 0)
  | .bool a, .int b => (if a then (1 : Int) else 0) = b
  | .list xs, .list ys => pyEqList xs ys
  | .dict a, .dict b => a.length = b.length && pyEqDict a b
  | _, _ => false
termination_by a _ => sizeOf a

/-- Elementwise Python `==` on lists. -/
def pyEqList : List Value → List Value → Bool
  | [], [] => true
  | x :: xs, y :: ys => pyEq x y && pyEqList xs ys
  | _, _ => false
termination_by xs _ => sizeOf xs

/-- Python `==` on dict items: every key of the first mapping is present in
the second with a `pyEq`-equal value. -/
def pyEqDict : List (String × Value) → List (String × Value) → Bool
  | [], _ => true
  | (k, v) :: rest, b =>
    (match b.lookup k with
     | some w => pyEq v w
     | none => false) && pyEqDict rest b
termination_by a _ => sizeOf a

end

/-- An observed difference (`class Difference`): printf-style message
template, path (nullable -- `None` for the broken-cluster record), and the
template arguments. -/
structure Difference where
  message : String
  path : Option String
  args : List Value

/-- `different_lengths(path, want, have)` -- the args are `len(want)` and
`len(have)`. -/
def different_lengths (path : String) (wlen hlen : Nat) : Difference :=
  ⟨"Unequal lengths: %d != %d", some path, [.int wlen, .int hlen]⟩

/-- `missing_item = partial(Difference, "'%s' missing")`. -/
def missing_item (path : String) (k : String) : Difference :=
  ⟨"'%s' missing", some path, [.str k]⟩

/-- `not_equal = partial(Difference, "'%s' != '%s'")`. -/
def not_equal (path : String) (want hv : Value) : Difference :=
  ⟨"'%s' != '%s'", some path, [want, hv]⟩

/-- `broken_cluster = partial(Difference, " *** %s", None)` -- note the
`None` path. -/
def broken_cluster (output : String) : Difference :=
  ⟨" *** %s", none, [.str output]⟩

/-- The observable behaviour of running a Python generator to exhaustion:
the values it yielded, in order, and the exception (if any) that ended the
iteration early. -/
structure GenResult where
  yields : List Difference
  error : Option PyErr

/-- Sequential composition of generator runs: if the first run raised, the
second never starts. -/
def GenResult.append (a b : GenResult) : GenResult :=
  match a.error with
  | some _ => a
  | none => ⟨a.yields ++ b.yields, b.error⟩

/-- The empty generator run. -/
def GenResult.nil : GenResult := ⟨[], none⟩

/-- Python `len` on a tree value: length of a sequence or string, number of
keys of a mapping; `TypeError` on int/bool/None. -/
def pyLen : Value → Except PyErr Nat
  | .list xs => .ok xs.length
  | .dict kvs => .ok kvs.length
  | .str s => .ok s.length
  | _ => .error .typeError

/-- Python iteration over a tree value: elements of a sequence, keys of a
mapping, one-character strings of a string; `TypeError` on int/bool/None. -/
def pyIter : Value → Except PyErr (List Value)
  | .list xs => .ok xs
  | .dict kvs => .ok (kvs.map (fun e => Value.str e.1))
  | .str s => .ok (s.toList.map (fun c => Value.str (String.mk [c])))
  | _ => .error .typeError

/-- Substring test (Python `k in s` for strings). -/
def strContains (s sub : String) : Bool :=
  (List.range (s.length + 1)).any (fun i => sub.isPrefixOf (s.drop i))

/-- Python `k in have` for a string `k`: key membership for a mapping,
elementwise `==` for a sequence, substring test for a string; `TypeError`
on int/bool/None. -/
def pyContains (hv : Value) (k : String) : Except PyErr Bool :=
  match hv with
  | .dict kvs => .ok (kvs.lookup k).isSome
  | .list xs => .ok (xs.any (fun v => pyEq (.str k) v))
  | .str s => .ok (strContains s k)
  | _ => .error .typeError

/-- Python `have[k]` for a string key `k`: mapping lookup (`KeyError` when
absent); `TypeError` on sequences, strings and scalars. -/
def pySubscript (hv : Value) (k : String) : Except PyErr Value :=
  match hv with
  | .dict kvs =>
    match kvs.lookup k with
    | some v => .ok v
    | none => .error .keyError
  | _ => .error .typeError

mutual

/-- `diff(path, want, have)`: dispatch on the runtime shape of `want`
(`isinstance(want, dict)` / `isinstance(want, list)` / scalar fallthrough
comparing with Python `==`). -/
def diff (path : String) (want hv : Value) : GenResult :=
  match want with
  | .dict kvs => diff_dicts path kvs hv
  | .list xs => diff_lists path xs hv
  | w => if pyEq w hv then GenResult.nil else ⟨[not_equal path w hv], none⟩
termination_by (sizeOf want, 0)

/-- `diff_dicts(path, want, have)`: iterate the items of `want`; `k not in
have` yields a missing-item record, otherwise recurse into `have[k]` with
the path extended by `.k`.  Both `k not in have` and `have[k]` follow
Python semantics and may raise. -/
def diff_dicts (path : String) (want : List (String × Value)) (hv : Value) : GenResult :=
  match want with
  | [] => GenResult.nil
  | (k, wv) :: rest =>
    let head : GenResult :=
      match pyContains hv k with
      | .error e => ⟨[], some e⟩
      | .ok false => ⟨[missing_item path k], none⟩
      | .ok true =>
        match pySubscript hv k with
        | .error e => ⟨[], some e⟩
        | .ok hvk => diff (path ++ "." ++ k) wv hvk
    head.append (diff_dicts path rest hv)
termination_by (sizeOf want, 0)

/-- `diff_lists(path, want, have)`: compare `len(want)` with `len(have)`
(which may raise), yield an unequal-lengths record on mismatch, then walk
`zip(want, have)` recursing elementwise with the path extended by `[i]`. -/
def diff_lists (path : String) (want : List Value) (hv : Value) : GenResult :=
  match pyLen hv with
  | .error e => ⟨[], some e⟩
  | .ok n =>
    (if want.length = n then GenResult.nil
     else ⟨[different_lengths path want.length n], none⟩).append
      (match pyIter hv with
       | .error e => ⟨[], some e⟩
       | .ok ys => diff_zip path 0 want ys)
termination_by (sizeOf want, 1)

/-- The `for i, (want_v, have_v) in enumerate(zip(want, have))` loop of
`diff_lists`, with `i` the next index to use. -/
def diff_zip (path : String) (i : Nat) (want ys : List Value) : GenResult :=
  match want, ys with
  | wv :: wrest, yv :: yrest =>
    (diff (path ++ "[" ++ toString i ++ "]") wv yv).append
      (diff_zip path (i + 1) wrest yrest)
  | _, _ => GenResult.nil
termination_by (sizeOf want, 0)

end

/-- A Kubernetes object identity (`class KubeObject`): namespace, kind and
name, stored as the raw tree values found in the data.  `ns` stands for the
source's `namespace` field (a Lean keyword). -/
structure KubeObject where
  ns : Value
  kind : Value
  name : Value

/-- Python `d.get(k, default)` on a mapping (the non-mapping branch is
unreachable in the modelled code because a subscript on the same value
succeeded just before). -/
def dictGetDefault (d : Value) (k : String) (dflt : Value) : Except PyErr Value :=
  match d with
  | .dict kvs => .ok ((kvs.lookup k).getD dflt)
  | _ => .error .typeError

/-- `KubeObject.from_dict(data)`: `data["kind"]`,
`data["metadata"]["name"]`, `data["metadata"].get("namespace", "default")`,
in the source's evaluation order; any failing access raises. -/
def KubeObject.from_dict (data : Value) : Except PyErr KubeObject := do
  let kind ← pySubscript data "kind"
  let md ← pySubscript data "metadata"
  let name ← pySubscript md "name"
  let ns ← dictGetDefault md "namespace" (.str "default")
  return ⟨ns, kind, name⟩

/-- One call made by the orchestrator on its printer (the Reporter): the
trace of these calls is the observable Reporter interaction. -/
inductive PrinterCall where
  | add (obj : KubeObject)
  | diff (obj : KubeObject) (d : Difference)
  | finish

/-- Outcome of `check_file`: the printer calls it made, and either the
returned value (`None` on the fetch-failure path, the difference count
otherwise) or the exception it raised. -/
structure CheckOutcome where
  calls : List PrinterCall
  result : Except PyErr (Option Nat)

/-- `check_file(printer, path, kubeconfig)`, with the two external
collaborators modelled as data: `expected` is the parsed YAML tree and
`fetched` the outcome of `KubeObject.get_from_cluster` (`Except.error
output` for a `CalledProcessError` with that output).  On fetch failure the
source records one `broken_cluster` difference and does a bare `return`
(Python `None`); otherwise it counts and records every difference the
engine yields (an engine exception propagates after those records). -/
def check_file (expected : Value) (fetched : Except String Value) : CheckOutcome :=
  match KubeObject.from_dict expected with
  | .error e => ⟨[], .error e⟩
  | .ok obj =>
    match fetched with
    | .error output => ⟨[.add obj, .diff obj (broken_cluster output)], .ok none⟩
    | .ok running =>
      let r := diff "" expected running
      ⟨.add obj :: r.yields.map (fun d => .diff obj d),
       match r.error with
       | some e => .error e
       | none => .ok (some r.yields.length)⟩

/-- Outcome of `check_files`: all printer calls made, and either the
returned "differences found" flag or the exception that aborted the
batch. -/
structure BatchOutcome where
  calls : List PrinterCall
  result : Except PyErr Bool

/-- The loop of `check_files` with the running `differences` counter.
`differences += check_file(...)` raises `TypeError` when `check_file`
returned `None` (Python `int + None`), aborting the batch; `finish` runs
only after a complete pass. -/
def check_files_go (count : Nat) : List (Value × Except String Value) → BatchOutcome
  | [] => ⟨[.finish], .ok (count != 0)⟩
  | (v, f) :: rest =>
    let c := check_file v f
    match c.result with
    | .error e => ⟨c.calls, .error e⟩
    | .ok none => ⟨c.calls, .error .typeError⟩
    | .ok (some n) =>
      let b := check_files_go (count + n) rest
      ⟨c.calls ++ b.calls, b.result⟩

/-- `check_files(paths, printer, kubeconfig)` over the declared-object
source, modelled as the list of (parsed tree, fetch outcome) pairs for the
YAML files in order. -/
def check_files (objs : List (Value × Except String Value)) : BatchOutcome :=
  check_files_go 0 objs

/-- Python dict lookup keyed by arbitrary values, using Python `==` on keys
(as CPython does after the hash probe). -/
def pyAssocGet {α : Type} : List (Value × α) → Value → Option α
  | [], _ => none
  | (k', v) :: rest, k => if pyEq k k' then some v else pyAssocGet rest k

/-- Python dict assignment keyed by arbitrary values: replace the value of
the `==`-matching key, or append a new entry. -/
def pyAssocSet {α : Type} : List (Value × α) → Value → α → List (Value × α)
  | [], k, v => [(k, v)]
  | (k', v') :: rest, k, v =>
    if pyEq k k' then (k', v) :: rest else (k', v') :: pyAssocSet rest k v

/-- The nested state of `JSONPrinter`: kind, then name, then the ordered
list of recorded entries `[difference.path] + list(difference.args)`. -/
abbrev JData := List (Value × List (Value × List (Option String × List Value)))

/-- `JSONPrinter.add`:
`self.data.setdefault(kube_obj.kind, {}).setdefault(kube_obj.name, [])`. -/
def JSONPrinter.add (st : JData) (obj : KubeObject) : JData :=
  match pyAssocGet st obj.kind with
  | none => pyAssocSet st obj.kind [(obj.name, [])]
  | some inner =>
    match pyAssocGet inner obj.name with
    | none => pyAssocSet st obj.kind (pyAssocSet inner obj.name [])
    | some _ => st

/-- `JSONPrinter.diff`: append `[difference.path] + list(difference.args)`
to `self.data[kube_obj.kind][kube_obj.name]` (a `KeyError` if the object
was never registered). -/
def JSONPrinter.diff (st : JData) (obj : KubeObject) (d : Difference) : Except PyErr JData :=
  match pyAssocGet st obj.kind with
  | none => .error .keyError
  | some inner =>
    match pyAssocGet inner obj.name with
    | none => .error .keyError
    | some recs =>
      .ok (pyAssocSet st obj.kind (pyAssocSet inner obj.name (recs ++ [(d.path, d.args)])))

/-- Python dict item assignment for a `String`-keyed mapping (used to state
the asymmetry law): replace the value at the first matching key, or append
the new entry. -/
def dictUpdate : List (String × Value) → String → Value → List (String × Value)
  | [], k, v => [(k, v)]
  | (k', v') :: rest, k, v =>
    if k' = k then (k', v) :: rest else (k', v') :: dictUpdate rest k v

/-- Whether a tree value is a scalar (string, number, boolean or null). -/
def Value.isScalar : Value → Bool
  | .str _ => true
  | .int _ => true
  | .bool _ => true
  | .null => true
  | .list _ => false
  | .dict _ => false

/-- The primitive-type tag of a scalar, used to say "different primitive
types" without fixing the payload. -/
def Value.typeTag : Value → Nat
  | .str _ => 0
  | .int _ => 1
  | .bool _ => 2
  | .null => 3
  | .list _ => 4
  | .dict _ => 5

/-- A boolean and a number carrying the same numeric value (`True`/`1` or
`False`/`0`), in either order -- the one cross-type pair Python `==`
identifies. -/
def boolIntCoincide : Value → Value → Bool
  | .bool b, .int n => (if b then (1 : Int) else 0) = n
  | .int n, .bool b => n = (if b then (1 : Int) else 0)
  | _, _ => false

/-- Restatement of the spec's mapping rule in mapping terms: for each key
`k` of `want` in order, a missing-item record at the parent path when `k`
has no entry in `have`, else the recursive diff of `want[k]` against
`have[k]` at the extended path. -/
def diffDictsSpec (path : String) : List (String × Value) → List (String × Value) → GenResult
  | [], _ => GenResult.nil
  | (k, wv) :: rest, hkvs =>
    (match hkvs.lookup k with
     | none => (⟨[missing_item path k], none⟩ : GenResult)
     | some hvk => diff (path ++ "." ++ k) wv hvk).append (diffDictsSpec path rest hkvs)

/-- Concatenation of generator runs produced per element, left to right. -/
def genConcat {α : Type} (f : α → GenResult) : List α → GenResult
  | [] => GenResult.nil
  | a :: as => (f a).append (genConcat f as)

/-- Restatement of the spec's sequence rule: recurse elementwise over the
common indices `0..min(len(want), len(have))-1`, extending the path with
`[i]`. -/
def elementwiseSpec (path : String) (want ys : List Value) : GenResult :=
  genConcat (fun p => diff (path ++ "[" ++ toString p.1 ++ "]") p.2.1 p.2.2)
    (want.zip ys).enum

/-- `SegExt base q`: `q` is `base` extended by zero or more `.key` /
`[index]` segments (the way the engine builds paths while descending). -/
inductive SegExt : String → String → Prop
  | refl (p : String) : SegExt p p
  | dot (p q k : String) : SegExt p q → SegExt p (q ++ "." ++ k)
  | idx (p q : String) (i : Nat) : SegExt p q → SegExt p (q ++ "[" ++ toString i ++ "]")

theorem GenResult.mem_yields_append {d : Difference} {a b : GenResult}
    (h : d ∈ (GenResult.append a b).yields) : d ∈ a.yields ∨ d ∈ b.yields := by
  obtain ⟨ys, er⟩ := a
  cases er <;> simp_all [GenResult.append]

theorem pyEq_refl_scalar {v : Value} (h : v.isScalar = true) : pyEq v v = true := by
  cases v <;> simp_all [Value.isScalar, pyEq]

/-- C9: the Diff Engine is deterministic with no hidden state -- two
invocations of `diff` on identical inputs produce identical sequences of
Differences; in the embedding `diff` is a pure function of its three
arguments and of nothing else. -/
theorem diff_deterministic (path : String) (want hv : Value) :
    diff path want hv = diff path want hv := rfl

/-- C1: evaluation of the code at the failing input.  For `want = {"a": 1}`
and the scalar `have = 5`, `diff` raises an uncaught `TypeError` (from
`'a' not in 5`) instead of yielding a missing-item Difference: the shape
mismatch is not surfaced as a Difference record. -/
theorem diff_shape_mismatch_typeerror :
    diff "" (.dict [("a", .int 1)]) (.int 5) = ⟨[], some .typeError⟩ := by
  simp [diff, diff_dicts, pyContains, GenResult.append]

/-- C3 counterexample: `True` and `1` are scalars of different primitive
types (boolean vs number), yet `diff` yields no Difference at all for
them, because Python `==` identifies `True` with `1`. -/
theorem diff_bool_int_no_difference :
    Value.typeTag (.bool true) ≠ Value.typeTag (.int 1) ∧
      diff "p" (.bool true) (.int 1) = GenResult.nil := by
  refine ⟨by decide, ?_⟩
  simp [diff, pyEq]

/-- C3 (amended): scalar comparison is exact value equality with no
coercion between primitive types, with one exception inherited from
Python's numeric booleans: for scalars of different primitive types,
`diff` yields exactly one "not equal" Difference carrying both values --
unless the pair is a boolean and a number with the same numeric value
(`true`/`1` or `false`/`0`), in which case it yields nothing. -/
theorem diff_scalar_cross_type (path : String) (w h : Value)
    (hw : w.isScalar = true) (hh : h.isScalar = true)
    (ht : w.typeTag ≠ h.typeTag) :
    diff path w h =
      if boolIntCoincide w h then GenResult.nil
      else ⟨[not_equal path w h], none⟩ := by
  cases w <;> cases h <;>
    simp_all [Value.isScalar, Value.typeTag, diff, pyEq, boolIntCoincide, not_equal]

/-- C3 witness: the string `"1"` and the number `1` are scalars of
different primitive types and no bool/number coincidence, so the amended
theorem applies and produces the single "not equal" record. -/
theorem diff_scalar_cross_type_witness :
    diff "p" (.str "1") (.int 1) = ⟨[not_equal "p" (.str "1") (.int 1)], none⟩ := by
  have h := diff_scalar_cross_type "p" (.str "1") (.int 1) rfl rfl (by decide)
  simpa [boolIntCoincide] using h

/-- C6: for mappings `want` and `have`, the engine walks the keys of
`want` in order; a key absent from `have` yields a missing-item
Difference at the parent path naming the key (with no recursion into that
key), and a present key contributes exactly the recursive diff of
`want[k]` against `have[k]` at the path extended by `.k`. -/
theorem diff_dict_dict_spec (path : String) (kvs hkvs : List (String × Value)) :
    diff path (.dict kvs) (.dict hkvs) = diffDictsSpec path kvs hkvs := by
  simp only [diff]
  induction kvs with
  | nil => rw [diff_dicts]; rfl
  | cons e rest ih =>
    obtain ⟨k, wv⟩ := e
    rw [diff_dicts]
    simp only [diffDictsSpec]
    rw [ih]
    cases hl : hkvs.lookup k with
    | none => simp [pyContains, hl]
    | some v => simp [pyContains, pySubscript, hl]

theorem lookup_dictUpdate_ne (hkvs : List (String × Value)) (k k' : String) (v : Value)
    (hne : k' ≠ k) : (dictUpdate hkvs k v).lookup k' = hkvs.lookup k' := by
  induction hkvs with
  | nil =>
    simp only [dictUpdate, List.lookup]
    cases hb : (k' == k) with
    | true => exact absurd (beq_iff_eq.mp hb) hne
    | false => rfl
  | cons e rest ih =>
    obtain ⟨a, b⟩ := e
    by_cases hak : a = k
    · subst hak
      simp only [dictUpdate, if_pos rfl, List.lookup]
      cases hb : (k' == a) with
      | true => exact absurd (beq_iff_eq.mp hb) hne
      | false => rfl
    · simp only [dictUpdate, if_neg hak, List.lookup]
      cases hb : (k' == a) with
      | true => rfl
      | false => exact ih

theorem diff_dicts_extra_key (path : String) (k : String) (v : Value)
    (hkvs : List (String × Value)) :
    ∀ want : List (String × Value), want.lookup k = none →
      diff_dicts path want (.dict (dictUpdate hkvs k v)) = diff_dicts path want (.dict hkvs) := by
  intro want
  induction want with
  | nil => intro _; rw [diff_dicts, diff_dicts]
  | cons e rest ih =>
    obtain ⟨k', wv⟩ := e
    intro hk
    simp only [List.lookup] at hk
    cases hb : (k == k') with
    | true => rw [hb] at hk; simp at hk
    | false =>
      rw [hb] at hk
      have hne : k' ≠ k := fun h => by rw [h] at hb; simp at hb
      rw [diff_dicts, diff_dicts]
      simp only [pyContains, pySubscript, lookup_dictUpdate_ne hkvs k k' v hne, ih hk]

/-- C4: asymmetry law.  Adding to the `have` mapping a key absent from
`want` (Python dict assignment: replace or append) leaves the produced
sequence of Differences unchanged -- structure present only in `have` is
never reported. -/
theorem diff_asymmetry (path : String) (want hkvs : List (String × Value))
    (k : String) (v : Value) (hk : want.lookup k = none) :
    diff path (.dict want) (.dict (dictUpdate hkvs k v)) =
      diff path (.dict want) (.dict hkvs) := by
  simp only [diff]
  exact diff_dicts_extra_key path k v hkvs want hk

/-- C4 witness: adding the key `extra` (absent from `want = {"a": 1}`) to
`have = {"a": 2}` changes nothing in the diff. -/
theorem diff_asymmetry_witness :
    diff "" (.dict [("a", .int 1)]) (.dict (dictUpdate [("a", .int 2)] "extra" (.str "x"))) =
      diff "" (.dict [("a", .int 1)]) (.dict [("a", .int 2)]) :=
  diff_asymmetry "" [("a", .int 1)] [("a", .int 2)] "extra" (.str "x") rfl

theorem diff_zip_eq_genConcat (path : String) :
    ∀ (xs ys : List Value) (i : Nat),
      diff_zip path i xs ys =
        genConcat (fun p => diff (path ++ "[" ++ toString p.1 ++ "]") p.2.1 p.2.2)
          ((xs.zip ys).enumFrom i) := by
  intro xs
  induction xs with
  | nil => intro ys i; cases ys <;> simp [diff_zip, genConcat, List.enumFrom]
  | cons x xs ih =>
    intro ys i
    cases ys with
    | nil => simp [diff_zip, genConcat, List.enumFrom]
    | cons y ys =>
      rw [diff_zip]
      simp only [List.zip_cons_cons, List.enumFrom, genConcat]
      rw [ih]
      rfl

/-- C5: for sequences of unequal lengths, `diff` yields exactly one
unequal-lengths Difference at the sequence's path carrying both lengths,
followed by exactly the elementwise recursive diffs over the common
indices `0..min(len(want), len(have))-1` (the zip truncates at the shorter
sequence, so no recursion happens beyond it). -/
theorem diff_lists_unequal_lengths (path : String) (xs ys : List Value)
    (h : xs.length ≠ ys.length) :
    diff path (.list xs) (.list ys) =
      GenResult.append ⟨[different_lengths path xs.length ys.length], none⟩
        (elementwiseSpec path xs ys) := by
  simp only [diff]
  rw [diff_lists]
  simp only [pyLen, pyIter, if_neg h]
  rw [diff_zip_eq_genConcat]
  rfl

/-- C5 witness: `want = [1, 2]`, `have = [1, 9, 9]` -- one unequal-lengths
record (2 vs 3) followed by the elementwise diffs of the first two
positions. -/
theorem diff_lists_unequal_lengths_witness :
    diff "" (.list [.int 1, .int 2]) (.list [.int 1, .int 9, .int 9]) =
      GenResult.append ⟨[different_lengths "" 2 3], none⟩
        (elementwiseSpec "" [.int 1, .int 2] [.int 1, .int 9, .int 9]) :=
  diff_lists_unequal_lengths "" [.int 1, .int 2] [.int 1, .int 9, .int 9] (by decide)

/-- `data` has a `metadata.name` field: its `metadata` entry exists, is a
mapping, and has a `name` key. -/
def hasMetadataName (kvs : List (String × Value)) : Bool :=
  match kvs.lookup "metadata" with
  | some (.dict m) => (m.lookup "name").isSome
  | _ => false

/-- C7: identity extraction from a declared mapping fails with an
extraction error exactly when the `kind` field or the `metadata.name`
field is absent, and when `metadata.namespace` is absent the extracted
namespace is the literal string `"default"` (the operation is a pure
function of `data`). -/
theorem from_dict_spec (kvs : List (String × Value)) :
    ((∃ e, KubeObject.from_dict (.dict kvs) = .error e) ↔
        kvs.lookup "kind" = none ∨ hasMetadataName kvs = false) ∧
    (∀ (m : List (String × Value)) (obj : KubeObject),
        kvs.lookup "metadata" = some (.dict m) → m.lookup "namespace" = none →
        KubeObject.from_dict (.dict kvs) = .ok obj → obj.ns = .str "default") := by
  constructor
  · unfold KubeObject.from_dict hasMetadataName
    cases hkind : kvs.lookup "kind" with
    | none =>
      simp [pySubscript, hkind, Bind.bind, Except.bind]
    | some kv =>
      cases hmd : kvs.lookup "metadata" with
      | none =>
        simp [pySubscript, hkind, hmd, Bind.bind, Except.bind]
      | some md =>
        cases md with
        | dict m =>
          cases hname : m.lookup "name" with
          | none =>
            simp [pySubscript, hkind, hmd, hname, Bind.bind, Except.bind]
          | some nv =>
            simp [pySubscript, dictGetDefault, hkind, hmd, hname, Bind.bind, Except.bind,
              pure, Except.pure]
        | str s => simp [pySubscript, hkind, hmd, Bind.bind, Except.bind]
        | int n => simp [pySubscript, hkind, hmd, Bind.bind, Except.bind]
        | bool b => simp [pySubscript, hkind, hmd, Bind.bind, Except.bind]
        | null => simp [pySubscript, hkind, hmd, Bind.bind, Except.bind]
        | list xs => simp [pySubscript, hkind, hmd, Bind.bind, Except.bind]
  · intro m obj hmd hns hobj
    unfold KubeObject.from_dict at hobj
    cases hkind : kvs.lookup "kind" with
    | none =>
      simp [pySubscript, hkind, Bind.bind, Except.bind] at hobj
    | some kv =>
      cases hname : m.lookup "name" with
      | none =>
        simp [pySubscript, hkind, hmd, hname, Bind.bind, Except.bind] at hobj
      | some nv =>
        simp [pySubscript, dictGetDefault, hkind, hmd, hname, hns, Bind.bind, Except.bind,
          pure, Except.pure] at hobj
        rw [← hobj]

/-- C7 witness: a declared object with `kind` and `metadata.name` but no
`metadata.namespace` extracts successfully and gets namespace
`"default"`. -/
theorem from_dict_spec_witness :
    ∃ obj,
      KubeObject.from_dict
          (.dict [("kind", .str "Service"), ("metadata", .dict [("name", .str "web")])]) =
        .ok obj ∧ obj.ns = .str "default" := by
  refine ⟨⟨.str "default", .str "Service", .str "web"⟩, rfl, ?_⟩
  exact (from_dict_spec [("kind", .str "Service"), ("metadata", .dict [("name", .str "web")])]).2
    [("name", .str "web")] ⟨.str "default", .str "Service", .str "web"⟩ rfl rfl rfl

theorem pyAssocGet_set {α : Type} (l : List (Value × α)) (k : Value) (x : α)
    (hk : pyEq k k = true) :
    pyAssocGet (pyAssocSet l k x) k = some x := by
  induction l with
  | nil => simp [pyAssocGet, pyAssocSet, hk]
  | cons e rest ih =>
    obtain ⟨k', v'⟩ := e
    by_cases hkk : pyEq k k' = true
    · simp [pyAssocGet, pyAssocSet, hkk]
    · simp [pyAssocGet, pyAssocSet, hkk, ih]

/-- C8: the aggregating reporter's register operation is idempotent --
re-registering leaves the whole state unchanged (so no duplicate top-level
entries, and recorded differences are preserved) -- and, from an empty
state, registering an object twice and then recording one difference
leaves exactly one kind entry with exactly one name entry holding exactly
that one record.  The kind and name are scalars, as they must be for
Python to use them as dict keys at all. -/
theorem jsonprinter_register_idempotent (obj : KubeObject)
    (hk : obj.kind.isScalar = true) (hn : obj.name.isScalar = true) :
    (∀ st : JData, JSONPrinter.add (JSONPrinter.add st obj) obj = JSONPrinter.add st obj) ∧
    (∀ d : Difference,
      JSONPrinter.diff (JSONPrinter.add (JSONPrinter.add [] obj) obj) obj d =
        .ok [(obj.kind, [(obj.name, [(d.path, d.args)])])]) := by
  have hkr := pyEq_refl_scalar hk
  have hnr := pyEq_refl_scalar hn
  have part1 : ∀ st : JData,
      JSONPrinter.add (JSONPrinter.add st obj) obj = JSONPrinter.add st obj := by
    intro st
    simp only [JSONPrinter.add]
    cases h1 : pyAssocGet st obj.kind with
    | none =>
      simp only [h1]
      simp only [pyAssocGet_set _ _ _ hkr]
      simp [pyAssocGet, hnr]
    | some inner =>
      simp only [h1]
      cases h2 : pyAssocGet inner obj.name with
      | none =>
        simp only [h2]
        simp only [pyAssocGet_set _ _ _ hkr]
        simp only [pyAssocGet_set _ _ _ hnr]
      | some recs =>
        simp only [h2, h1]
  refine ⟨part1, ?_⟩
  intro d
  rw [part1 []]
  simp [JSONPrinter.add, JSONPrinter.diff, pyAssocGet, pyAssocSet, hkr, hnr]

/-- C8 witness: a concrete Deployment object registered twice with one
difference recorded against it. -/
theorem jsonprinter_register_idempotent_witness :
    JSONPrinter.add
        (JSONPrinter.add [] ⟨.str "default", .str "Deployment", .str "web"⟩)
        ⟨.str "default", .str "Deployment", .str "web"⟩ =
      JSONPrinter.add [] ⟨.str "default", .str "Deployment", .str "web"⟩ ∧
    JSONPrinter.diff
        (JSONPrinter.add
          (JSONPrinter.add [] ⟨.str "default", .str "Deployment", .str "web"⟩)
          ⟨.str "default", .str "Deployment", .str "web"⟩)
        ⟨.str "default", .str "Deployment", .str "web"⟩ (missing_item "" "a") =
      .ok [(.str "Deployment", [(.str "web", [(some "", [.str "a"])])])] := by
  have h := jsonprinter_register_idempotent ⟨.str "default", .str "Deployment", .str "web"⟩ rfl rfl
  exact ⟨h.1 [], h.2 (missing_item "" "a")⟩

/-- C2: evaluation of the code at the failing input.  A batch of two
declared objects where the first object's fetch fails: the per-object
check does record exactly one synthetic `broken_cluster` Difference (with
null path) and does not run the Diff Engine for it, but because
`check_file` then returns `None`, the `differences += check_file(...)`
statement in `check_files` raises `TypeError`: the batch aborts without
ever registering the second object (and without reaching `finish`),
instead of continuing. -/
theorem check_files_fetch_failure_crashes :
    check_files
        [(.dict [("kind", .str "Deployment"), ("metadata", .dict [("name", .str "a")])],
          .error "boom"),
         (.dict [("kind", .str "Deployment"), ("metadata", .dict [("name", .str "b")])],
          .ok (.dict []))] =
      ⟨[.add ⟨.str "default", .str "Deployment", .str "a"⟩,
        .diff ⟨.str "default", .str "Deployment", .str "a"⟩ (broken_cluster "boom")],
       .error .typeError⟩ ∧
    (broken_cluster "boom").path = none := ⟨rfl, rfl⟩

theorem SegExt.trans {p q r : String} (h1 : SegExt p q) (h2 : SegExt q r) : SegExt p r := by
  induction h2 with
  | refl => exact h1
  | dot q' k _ ih => exact SegExt.dot _ _ k ih
  | idx q' i _ ih => exact SegExt.idx _ _ i ih

theorem mem_diff_zip {path : String} {d : Difference} :
    ∀ (xs : List Value) (i : Nat) (ys : List Value), d ∈ (diff_zip path i xs ys).yields →
      ∃ (j : Nat) (x y : Value), x ∈ xs ∧
        d ∈ (diff (path ++ "[" ++ toString j ++ "]") x y).yields := by
  intro xs
  induction xs with
  | nil => intro i ys h; cases ys <;> simp [diff_zip, GenResult.nil] at h
  | cons x xs ih =>
    intro i ys h
    cases ys with
    | nil => simp [diff_zip, GenResult.nil] at h
    | cons y ys =>
      rw [diff_zip] at h
      rcases GenResult.mem_yields_append h with h1 | h2
      · exact ⟨i, x, y, List.mem_cons_self x xs, h1⟩
      · obtain ⟨j, x', y', hx, hd⟩ := ih (i + 1) ys h2
        exact ⟨j, x', y', List.mem_cons_of_mem _ hx, hd⟩

theorem mem_diff_dicts {path : String} {hv : Value} {d : Difference} :
    ∀ (kvs : List (String × Value)), d ∈ (diff_dicts path kvs hv).yields →
      (∃ k, d = missing_item path k) ∨
      (∃ (k : String) (wv hvk : Value), (k, wv) ∈ kvs ∧
        d ∈ (diff (path ++ "." ++ k) wv hvk).yields) := by
  intro kvs
  induction kvs with
  | nil => intro h; simp [diff_dicts, GenResult.nil] at h
  | cons e rest ih =>
    obtain ⟨k, wv⟩ := e
    intro h
    rw [diff_dicts] at h
    rcases GenResult.mem_yields_append h with h1 | h2
    · revert h1
      cases hc : pyContains hv k with
      | error e => intro h1; simp at h1
      | ok b =>
        cases b with
        | false => intro h1; simp at h1; exact Or.inl ⟨k, h1⟩
        | true =>
          cases hs : pySubscript hv k with
          | error e => intro h1; simp at h1
          | ok hvk =>
            intro h1
            exact Or.inr ⟨k, wv, hvk, List.mem_cons_self _ _, h1⟩
    · rcases ih h2 with h' | ⟨k', wv', hvk', hm, hd⟩
      · exact Or.inl h'
      · exact Or.inr ⟨k', wv', hvk', List.mem_cons_of_mem _ hm, hd⟩

theorem mem_diff_lists {path : String} {hv : Value} {d : Difference} (xs : List Value)
    (h : d ∈ (diff_lists path xs hv).yields) :
    (∃ m, d = different_lengths path xs.length m) ∨
    (∃ (j : Nat) (x y : Value), x ∈ xs ∧
      d ∈ (diff (path ++ "[" ++ toString j ++ "]") x y).yields) := by
  rw [diff_lists] at h
  cases hp : pyLen hv with
  | error e => rw [hp] at h; simp at h
  | ok n =>
    rw [hp] at h
    rcases GenResult.mem_yields_append h with h1 | h2
    · by_cases hl : xs.length = n
      · simp [hl, GenResult.nil] at h1
      · simp [hl] at h1
        exact Or.inl ⟨n, h1⟩
    · cases hi : pyIter hv with
      | error e => rw [hi] at h2; simp at h2
      | ok ys =>
        rw [hi] at h2
        exact Or.inr (mem_diff_zip xs 0 ys h2)

theorem diff_yield_path_aux :
    ∀ (n : Nat) (want : Value), sizeOf want ≤ n →
      ∀ (path : String) (hv : Value) (d : Difference), d ∈ (diff path want hv).yields →
        ∃ q, d.path = some q ∧ SegExt path q := by
  intro n
  induction n using Nat.strong_induction_on with
  | _ n ih =>
    intro want hn path hv d hd
    cases want with
    | dict kvs =>
      simp only [diff] at hd
      rcases mem_diff_dicts kvs hd with ⟨k, rfl⟩ | ⟨k, wv, hvk, hm, hmem⟩
      · exact ⟨path, rfl, SegExt.refl path⟩
      · have hsz : sizeOf wv < n := by
          have h1 := List.sizeOf_lt_of_mem hm
          have h2 : sizeOf (Value.dict kvs) = 1 + sizeOf kvs := by simp
          simp at h1
          omega
        obtain ⟨q, hq, hseg⟩ := ih (sizeOf wv) hsz wv le_rfl (path ++ "." ++ k) hvk d hmem
        exact ⟨q, hq, SegExt.trans (SegExt.dot path path k (SegExt.refl path)) hseg⟩
    | list xs =>
      simp only [diff] at hd
      rcases mem_diff_lists xs hd with ⟨m, rfl⟩ | ⟨j, x, y, hx, hmem⟩
      · exact ⟨path, rfl, SegExt.refl path⟩
      · have hsz : sizeOf x < n := by
          have h1 := List.sizeOf_lt_of_mem hx
          have h2 : sizeOf (Value.list xs) = 1 + sizeOf xs := by simp
          omega
        obtain ⟨q, hq, hseg⟩ :=
          ih (sizeOf x) hsz x le_rfl (path ++ "[" ++ toString j ++ "]") y d hmem
        exact ⟨q, hq, SegExt.trans (SegExt.idx path path j (SegExt.refl path)) hseg⟩
    | str s =>
      simp only [diff] at hd
      by_cases hpe : pyEq (.str s) hv = true
      · simp [hpe, GenResult.nil] at hd
      · simp [hpe] at hd
        exact ⟨path, by rw [hd]; rfl, SegExt.refl path⟩
    | int m =>
      simp only [diff] at hd
      by_cases hpe : pyEq (.int m) hv = true
      · simp [hpe, GenResult.nil] at hd
      · simp [hpe] at hd
        exact ⟨path, by rw [hd]; rfl, SegExt.refl path⟩
    | bool b =>
      simp only [diff] at hd
      by_cases hpe : pyEq (.bool b) hv = true
      · simp [hpe, GenResult.nil] at hd
      · simp [hpe] at hd
        exact ⟨path, by rw [hd]; rfl, SegExt.refl path⟩
    | null =>
      simp only [diff] at hd
      by_cases hpe : pyEq .null hv = true
      · simp [hpe, GenResult.nil] at hd
      · simp [hpe] at hd
        exact ⟨path, by rw [hd]; rfl, SegExt.refl path⟩

/-- C10: path-prefix invariant.  Every Difference the engine yields
carries a non-null path that is the invocation's path argument extended by
zero or more `.key` / `[index]` segments -- never a path outside the
subtree the call was invoked on. -/
theorem diff_path_extension (path : String) (want hv : Value) (d : Difference)
    (hd : d ∈ (diff path want hv).yields) :
    ∃ q, d.path = some q ∧ SegExt path q :=
  diff_yield_path_aux (sizeOf want) want le_rfl path hv d hd

/-- C10 witness: the "not equal" record produced at key `a` of a nested
mapping carries path `.a`, an extension of the root path `""`. -/
theorem diff_path_extension_witness :
    ∃ q, (not_equal ".a" (.int 1) (.int 2)).path = some q ∧ SegExt "" q := by
  have hev : diff "" (.dict [("a", .int 1)]) (.dict [("a", .int 2)]) =
      ⟨[not_equal ".a" (.int 1) (.int 2)], none⟩ := by
    simp [diff, diff_dicts, pyContains, pySubscript, pyEq, GenResult.append, GenResult.nil]
  apply diff_path_extension "" (.dict [("a", .int 1)]) (.dict [("a", .int 2)])
  rw [hev]
  exact List.mem_singleton_self _
